import Mathlib

/-!
# TaggableFS — verification of the metadata model

A shallow embedding of the metadata layer of TaggableFS (`src/common.cpp`,
`src/TFSManager.cpp`).  The SQLite-backed state is modelled as two lists of
rows (the `tags` and `files` tables).  Row ids are decimal strings in the
C++ code; decimal strings are in bijection with naturals, so ids are
modelled as `Nat`, and the C++ empty-string "no result" sentinel is
modelled as `none : Option Nat`.  The semicolon-serialised id columns are
modelled as `List Nat` (the round-trip of the raw serialisation is proved
separately on `String`, faithful to `common.cpp`).
-/

namespace TaggableFS

/-! ## common.cpp : serializeStrings / deserializeStrings -/

/-- `serializeStrings` from `common.cpp`: concatenates the non-empty
elements, each followed by the separator. -/
def serializeStrings (ids : List String) (separator : Char) : String :=
  ids.foldl (fun acc x => if x = "" then acc else acc ++ x.push separator) ""

/-- The scanning loop of `deserializeStrings` from `common.cpp`.  `cur` is
the window `[begin, end)` of the C++ code; a token is emitted at each
separator; the trailing window is dropped when the input is exhausted. -/
def deserGo (separator : Char) : List Char → List Char → List String
  | [], _ => []
  | c :: rest, cur =>
    if c = separator then String.mk cur :: deserGo separator rest []
    else deserGo separator rest (cur ++ [c])

/-- `deserializeStrings` from `common.cpp`.  The C++ loop starts the scan
at index 1, so the character at index 0 is placed in the window
unconditionally. -/
def deserializeStrings (serializedIDs : String) (separator : Char) : List String :=
  match serializedIDs.data with
  | [] => []
  | c :: rest => deserGo separator rest [c]

/-- Character-level view of `serializeStrings`, used in proofs. -/
def serChars (separator : Char) : List String → List Char
  | [] => []
  | x :: v => if x = "" then serChars separator v else x.data ++ separator :: serChars separator v

theorem string_data_append (a b : String) : (a ++ b).data = a.data ++ b.data := rfl

theorem string_data_push (a : String) (c : Char) : (a.push c).data = a.data ++ [c] := rfl

theorem serializeStrings_data_aux (separator : Char) :
    ∀ (v : List String) (acc : String),
      (v.foldl (fun acc x => if x = "" then acc else acc ++ x.push separator) acc).data
        = acc.data ++ serChars separator v := by
  intro v
  induction v with
  | nil => intro acc; simp [serChars]
  | cons x v ih =>
    intro acc
    by_cases hx : x = ""
    · subst hx
      simp [serChars, ih]
    · simp only [List.foldl_cons, if_neg hx, serChars, ih, string_data_append,
        string_data_push]
      simp [hx, List.append_assoc]

theorem serializeStrings_data (separator : Char) (v : List String) :
    (serializeStrings v separator).data = serChars separator v := by
  have h := serializeStrings_data_aux separator v ""
  simpa [serializeStrings] using h

theorem deserGo_token (separator : Char) (x : List Char) (hx : ∀ c ∈ x, c ≠ separator) :
    ∀ (cur t : List Char),
      deserGo separator (x ++ separator :: t) cur
        = String.mk (cur ++ x) :: deserGo separator t [] := by
  induction x with
  | nil =>
    intro cur t
    simp [deserGo]
  | cons c cs ih =>
    intro cur t
    have hc : c ≠ separator := hx c (by simp)
    have hcs : ∀ d ∈ cs, d ≠ separator := fun d hd => hx d (by simp [hd])
    simp only [List.cons_append, deserGo, if_neg hc]
    simpa [List.append_assoc] using ih hcs (cur ++ [c]) t

theorem string_mk_data (s : String) : String.mk s.data = s := rfl

theorem deserGo_serChars (separator : Char) :
    ∀ (v : List String), (∀ x ∈ v, ∀ c ∈ x.data, c ≠ separator) →
      deserGo separator (serChars separator v) [] = v.filter (fun x => x != "") := by
  intro v
  induction v with
  | nil => intro _; simp [serChars, deserGo]
  | cons x v ih =>
    intro hv
    have hx : ∀ c ∈ x.data, c ≠ separator := hv x (by simp)
    have hv' : ∀ y ∈ v, ∀ c ∈ y.data, c ≠ separator := fun y hy => hv y (by simp [hy])
    by_cases hxe : x = ""
    · subst hxe
      simp [serChars, ih hv']
    · simp only [serChars, if_neg hxe]
      rw [deserGo_token separator x.data hx [] (serChars separator v)]
      rw [List.nil_append, string_mk_data, ih hv']
      have : (x != "") = true := by
        simp [bne_iff_ne, hxe]
      simp [List.filter_cons, this]

theorem serChars_head_ne (separator : Char) :
    ∀ (v : List String), (∀ x ∈ v, ∀ c ∈ x.data, c ≠ separator) →
      ∀ c rest, serChars separator v = c :: rest → c ≠ separator := by
  intro v
  induction v with
  | nil => intro _ c rest h; simp [serChars] at h
  | cons x v ih =>
    intro hv c rest h
    by_cases hxe : x = ""
    · exact ih (fun y hy => hv y (by simp [hy])) c rest (by simpa [serChars, hxe] using h)
    · simp only [serChars, if_neg hxe] at h
      match hx : x.data with
      | [] =>
        exact absurd (congrArg String.mk hx) (by simpa [string_mk_data] using hxe)
      | d :: ds =>
        rw [hx] at h
        simp only [List.cons_append] at h
        injection h with h1 _
        exact h1 ▸ hv x (by simp) d (by simp [hx])

theorem serChars_eq_nil (separator : Char) :
    ∀ v : List String, serChars separator v = [] → ∀ x ∈ v, x = "" := by
  intro v
  induction v with
  | nil => simp
  | cons y v ih =>
    intro h x hx
    by_cases hye : y = ""
    · rcases List.mem_cons.mp hx with rfl | hx'
      · exact hye
      · exact ih (by simpa [serChars, hye] using h) x hx'
    · simp only [serChars, if_neg hye] at h
      cases hdy : y.data with
      | nil => exact absurd (congrArg String.mk hdy) (by simpa [string_mk_data] using hye)
      | cons d ds => rw [hdy] at h; simp at h

/-- **C10** — round-trip of the semicolon-delimited id encoding: for a
vector whose elements contain no `;`, deserialising the serialisation
keeps exactly the non-empty elements in order; in particular it is the
identity when every element is non-empty. -/
theorem serialize_deserialize_roundtrip (v : List String)
    (hsep : ∀ x ∈ v, ∀ c ∈ x.data, c ≠ ';') :
    deserializeStrings (serializeStrings v ';') ';' = v.filter (fun x => x != "") ∧
    ((∀ x ∈ v, x ≠ "") → deserializeStrings (serializeStrings v ';') ';' = v) := by
  have hdata : (serializeStrings v ';').data = serChars ';' v := serializeStrings_data ';' v
  have hmain : deserializeStrings (serializeStrings v ';') ';' = v.filter (fun x => x != "") := by
    unfold deserializeStrings
    rw [hdata]
    cases hsc : serChars ';' v with
    | nil =>
      have hall := serChars_eq_nil ';' v hsc
      show ([] : List String) = v.filter (fun x => x != "")
      symm
      rw [List.filter_eq_nil_iff]
      intro x hx
      simp [hall x hx]
    | cons c rest =>
      have hcne : c ≠ ';' := serChars_head_ne ';' v hsep c rest hsc
      have h2 : deserGo ';' rest [c] = deserGo ';' (c :: rest) [] := by
        simp [deserGo, hcne]
      show deserGo ';' rest [c] = v.filter (fun x => x != "")
      rw [h2, ← hsc, deserGo_serChars ';' v hsep]
  refine ⟨hmain, fun hne => ?_⟩
  rw [hmain, List.filter_eq_self]
  intro x hx
  simp [bne_iff_ne, hne x hx]

/-- Witness for C10 at a concrete vector. -/
theorem serialize_deserialize_roundtrip_witness :
    deserializeStrings (serializeStrings ["12", "7"] ';') ';' = ["12", "7"] :=
  (serialize_deserialize_roundtrip ["12", "7"] (by decide)).2 (by decide)

/-! ## The metadata store

One row per entry of the `tags` and `files` tables of `TFSManager.cpp`.
The serialised `parent_tags` / `child_tags` / `files_ids` columns are held
as `List Nat` (see the round-trip theorem above); `parent_folder` of a tag
row is `-1` for the two reserved roots, `0` for tags and `≥ 1` for
folders.  Lists of rows are kept in rowid (= id) order, matching the
order in which the SQLite `SELECT`s of the source return rows, so
`List.find?` returns the same row as the first-row convention of
`dbExecuteSV`. -/

structure TagRow where
  tag_id : Nat
  tag_name : String
  parent_folder : Int
  parent_tags : List Nat
  child_tags : List Nat
  files_ids : List Nat
deriving DecidableEq, Repr

structure FileRow where
  file_id : Nat
  filename : String
  hash : String
  parent_folder : Nat
deriving DecidableEq, Repr

structure St where
  tags : List TagRow
  files : List FileRow
deriving DecidableEq, Repr

def ENOENT : Int := 2

def EEXIST : Int := 17

def ENOTEMPTY : Int := 39

/-- The two reserved root rows inserted by `initDB`. -/
def initSt : St :=
  { tags := [
      { tag_id := 0, tag_name := "__TaggableFS__//", parent_folder := -1,
        parent_tags := [], child_tags := [], files_ids := [] },
      { tag_id := 1, tag_name := "/", parent_folder := -1,
        parent_tags := [], child_tags := [], files_ids := [] } ],
    files := [] }

/-! ### Path helpers (`common.cpp`) -/

/-- Loop of `splitPathIntoParts`: split the characters after the leading
slash on `/`, dropping empty components. -/
def partsAux : List Char → List Char → List String
  | [], cur => if cur.isEmpty then [] else [String.mk cur]
  | c :: rest, cur =>
    if c = '/' then
      if cur.isEmpty then partsAux rest [] else String.mk cur :: partsAux rest []
    else partsAux rest (cur ++ [c])

/-- `splitPathIntoParts` from `common.cpp`: empty unless the path starts
with `/`; then the slash-separated non-empty components. -/
def splitPathIntoParts (path : String) : List String :=
  match path.data with
  | '/' :: rest => partsAux rest []
  | _ => []

/-- `popBackAndRemove` from `common.cpp`, returning the popped element and
the remaining vector (`""` for an empty vector). -/
def popBack : List String → String × List String
  | [] => ("", [])
  | [x] => (x, [])
  | x :: y :: xs =>
    let p := popBack (y :: xs)
    (p.1, x :: p.2)

/-- Suffix after the last `/` (the whole string when there is none),
mirroring `substr(find_last_of('/') + 1)`. -/
def afterLastSlash (cs : List Char) : List Char :=
  cs.foldl (fun acc c => if c = '/' then [] else acc ++ [c]) []

/-- `getFilename` from `common.cpp`. -/
def getFilename (path : String) : String :=
  String.mk (afterLastSlash path.data)

/-- Prefix before the last `/` (the whole string when there is none),
mirroring `substr(0, find_last_of('/'))`. -/
def beforeLastSlash : List Char → List Char
  | [] => []
  | c :: rest =>
    if '/' ∈ rest then c :: beforeLastSlash rest
    else if c = '/' then [] else c :: rest

/-! ### Read queries over the store -/

/-- First row of the `tags` table with the given `tag_id`. -/
def lookupTag (s : St) (tagID : Nat) : Option TagRow :=
  s.tags.find? (fun r => r.tag_id == tagID)

/-- The `GET_TAG_ID` query: first tag row (i.e. `parent_folder = 0`) with
the given name.  The checks for `""` and `"/"` are the leading checks of
`TFSManager::getTagID`; any argument reaching the query itself is
slash-free, so this is the whole plain branch of that function. -/
def getTagIDPlain (s : St) (tag : String) : Option Nat :=
  if tag = "" then none
  else if tag = "/" then some 0
  else (s.tags.find? (fun r => r.tag_name == tag && r.parent_folder == 0)).map
    (fun r => r.tag_id)

/-- `getParentTagIDs`: deserialised `parent_tags` column (empty for a
missing row). -/
def getParentTagIDs (s : St) (tagID : Nat) : List Nat :=
  match lookupTag s tagID with
  | some r => r.parent_tags
  | none => []

/-- `getChildTagIDs`: deserialised `child_tags` column. -/
def getChildTagIDs (s : St) (tagID : Nat) : List Nat :=
  match lookupTag s tagID with
  | some r => r.child_tags
  | none => []

/-- `getFileIDsUnderTagID`: deserialised `files_ids` column; `none`
models the C++ `""` argument, which short-circuits to an empty vector. -/
def getFileIDsUnderTagID (s : St) (tagID : Option Nat) : List Nat :=
  match tagID with
  | none => []
  | some t =>
    match lookupTag s t with
    | some r => r.files_ids
    | none => []

/-- `std::set` insertion: membership-preserving, duplicates dropped. -/
def insertS (t : Nat) (l : List Nat) : List Nat :=
  if t ∈ l then l else l ++ [t]

/-- Fuel for `getAncestorTagIDs`.  The C++ recursion has no explicit
bound; each step either stops (root, or a row without a `parent_tags`
entry) or descends to a parent row, so on an acyclic store its depth is
at most the number of tag rows plus two, and this fuel never runs out.
(On a cyclic store the C++ recursion would not terminate at all.) -/
def ancFuel (s : St) : Nat := s.tags.length + 2

/-- `getAncestorTagIDs`: collect a tag and, recursively, the tags listed
in `parent_tags`, stopping at the reserved root id `0` (and at the C++
empty-string argument, which cannot arise for the `Nat`-typed ids
reached through `parent_tags` entries). -/
def getAncestorTagIDs (s : St) : Nat → Nat → List Nat → List Nat
  | 0, _, ancestors => ancestors
  | fuel + 1, tagID, ancestors =>
    if tagID = 0 then ancestors
    else (getParentTagIDs s tagID).foldl
      (fun anc p => getAncestorTagIDs s fuel p anc) (insertS tagID ancestors)

/-- Ancestor set of a resolution result (`none` models the C++ `""`,
for which `getAncestorTagIDs` returns immediately). -/
def ancestorsOf (s : St) (tagID : Option Nat) : List Nat :=
  match tagID with
  | none => []
  | some t => getAncestorTagIDs s (ancFuel s) t []

/-- `TFSManager::getTagID`.  A path (leading `/`) resolves to the tag id
of its last component, provided every other component names an ancestor
of that tag; a bare name is looked up directly.  Path components are
slash-free and non-empty, so the recursive C++ calls on them take the
plain branch, embedded here as `getTagIDPlain`. -/
def getTagID (s : St) (tagPath : String) : Option Nat :=
  if tagPath = "" then none
  else if tagPath = "/" then some 0
  else
    match tagPath.data with
    | '/' :: _ =>
      let pb := popBack (splitPathIntoParts tagPath)
      let tagID := getTagIDPlain s pb.1
      let anc := ancestorsOf s tagID
      if pb.2.all (fun part =>
          match getTagIDPlain s part with
          | some i => decide (i ∈ anc)
          | none => false)
      then tagID else none
    | _ => getTagIDPlain s tagPath

/-- `getParentTagIDFromPath`: resolve the prefix before the last slash
(the sentinel root `0` when that prefix is empty). -/
def getParentTagIDFromPath (s : St) (tagPath : String) : Option Nat :=
  let parentTag := String.mk (beforeLastSlash tagPath.data)
  if parentTag = "" then some 0 else getTagID s parentTag

/-- `getFilenameFromID` (`""` when no row exists, as in the source). -/
def getFilenameFromID (s : St) (fileID : Nat) : String :=
  match s.files.find? (fun f => f.file_id == fileID) with
  | some f => f.filename
  | none => ""

/-- `getTaggedFileID`: first file id under the tag whose filename
matches. -/
def getTaggedFileID (s : St) (parentTagID : Option Nat) (filename : String) : Option Nat :=
  match parentTagID with
  | none => none
  | some _ =>
    (getFileIDsUnderTagID s parentTagID).find? (fun fid => getFilenameFromID s fid == filename)

/-- `getAllTagIDs`: ids of all rows with `parent_folder = 0`. -/
def getAllTagIDs (s : St) : List Nat :=
  (s.tags.filter (fun r => r.parent_folder == 0)).map (fun r => r.tag_id)

/-- `getFilenamesUnderTagID`. -/
def getFilenamesUnderTagID (s : St) (tagID : Option Nat) : List String :=
  (getFileIDsUnderTagID s tagID).map (getFilenameFromID s)

/-- `getFileTags`: names of the tags (rows with `parent_folder = 0`)
whose `files_ids` contain the file id, one occurrence per list entry as
in the source's nested loop; empty when the file id has no row. -/
def getFileTags (s : St) (fileID : Nat) : List String :=
  if getFilenameFromID s fileID = "" then []
  else (s.tags.filter (fun r => r.parent_folder == 0)).flatMap
    (fun r => (r.files_ids.filter (fun i => i == fileID)).map (fun _ => r.tag_name))

/-! ### Folder-side queries -/

/-- The `GET_FOLDER_ID` query: first row with the given name directly
under the given parent folder. -/
def getFolderIDIn (s : St) (folderName : String) (parentFolderID : Nat) : Option Nat :=
  (s.tags.find? (fun r => r.tag_name == folderName && r.parent_folder == (parentFolderID : Int))).map
    (fun r => r.tag_id)

/-- Path-walking overload of `getFolderID`, starting at the root folder
(id `1`). -/
def getFolderID (s : St) (partsOfPath : List String) : Option Nat :=
  partsOfPath.foldl
    (fun acc part =>
      match acc with
      | none => none
      | some f => getFolderIDIn s part f)
    (some 1)

/-- `getFileID`. -/
def getFileID (s : St) (filename : String) (parentFolderID : Nat) : Option Nat :=
  (s.files.find? (fun f => f.filename == filename && f.parent_folder == parentFolderID)).map
    (fun f => f.file_id)

/-- `getHash` (`none` models the C++ `""`; every inserted row has a
non-empty hash column). -/
def getHash (s : St) (filename : String) (parentFolderID : Nat) : Option String :=
  (s.files.find? (fun f => f.filename == filename && f.parent_folder == parentFolderID)).map
    (fun f => f.hash)

/-- `getFileIDsInFolder`. -/
def getFileIDsInFolder (s : St) (parentFolderID : Nat) : List Nat :=
  (s.files.filter (fun f => f.parent_folder == parentFolderID)).map (fun f => f.file_id)

/-- `isFolderEmpty`: the `SELECT COUNT(*) > 0 FROM files WHERE
parent_folder=@folderID` predicate, negated as in the source. -/
def isFolderEmpty (s : St) (folderID : Nat) : Bool :=
  !(s.files.any (fun f => f.parent_folder == folderID))

/-- The `COUNT_HASH_GT_1` query as a boolean. -/
def countHashGtOne (s : St) (hash : String) : Bool :=
  decide (1 < (s.files.filter (fun f => f.hash == hash)).length)

/-- Rowid assigned by SQLite to a fresh `INSERT`: one more than the
largest existing rowid. -/
def newTagId (s : St) : Nat :=
  (s.tags.foldl (fun m r => max m r.tag_id) 0) + 1

/-! ### Write queries -/

/-- The `UPDATE_PARENT_TAG_IDS` statement. -/
def updateParentTagIDs (s : St) (tagID : Nat) (parentTagIDs : List Nat) : St :=
  { s with tags := s.tags.map (fun r =>
      if r.tag_id == tagID then { r with parent_tags := parentTagIDs } else r) }

/-- The `UPDATE_CHILD_TAG_IDS` statement. -/
def updateChildTagIDs (s : St) (tagID : Nat) (childTagIDs : List Nat) : St :=
  { s with tags := s.tags.map (fun r =>
      if r.tag_id == tagID then { r with child_tags := childTagIDs } else r) }

/-- The `UPDATE_TAG_FILE_IDS` statement (`none` is the C++ `""` id, on
which the integer bind would raise; it is never reached through the
operations proved about below). -/
def updateTagFileIDs (s : St) (tagID : Option Nat) (fileIDs : List Nat) : St :=
  match tagID with
  | none => s
  | some t =>
    { s with tags := s.tags.map (fun r =>
        if r.tag_id == t then { r with files_ids := fileIDs } else r) }

/-! ### Tag operations (`TFSManager.cpp`) -/

/-- `TFSManager::createTag`. -/
def createTag (s : St) (tagPath : String) : Int × St :=
  if (getTagID s tagPath).isSome then (EEXIST, s)
  else
    let tp : String × Option Nat :=
      if '/' ∈ tagPath.data then
        let pb := popBack (splitPathIntoParts tagPath)
        match pb.2 with
        | [] => (pb.1, some 0)
        | _ => (pb.1, getTagID s (pb.2.getLastD ""))
      else (tagPath, some 0)
    match tp.2 with
    | none => (1, s)
    | some parentTagID =>
      let row : TagRow :=
        { tag_id := newTagId s, tag_name := tp.1, parent_folder := 0,
          parent_tags := [parentTagID], child_tags := [], files_ids := [] }
      let s1 : St := { s with tags := s.tags ++ [row] }
      match getTagIDPlain s1 tp.1 with
      | none => (1, s1)
      | some tagID =>
        (0, updateChildTagIDs s1 parentTagID (getChildTagIDs s1 parentTagID ++ [tagID]))

/-- `TFSManager::deleteTag`. -/
def deleteTag (s : St) (tagPath : String) : Int × St :=
  match getTagID s tagPath with
  | none => (ENOENT, s)
  | some tagID =>
    if getFileIDsUnderTagID s (some tagID) ≠ [] ∨ getChildTagIDs s tagID ≠ [] then
      (ENOTEMPTY, s)
    else
      let s1 := (getParentTagIDs s tagID).foldl
        (fun st p => updateChildTagIDs st p ((getChildTagIDs st p).erase tagID)) s
      (0, { s1 with tags := s1.tags.filter (fun r => !(r.tag_id == tagID)) })

/-- `TFSManager::nestTag`.  Arguments are resolution results (`none` is
the C++ `""`). -/
def nestTag (s : St) (tagID parentTagID : Option Nat) : Int × St :=
  match tagID, parentTagID with
  | some c, some p =>
    let childIDs := getChildTagIDs s p
    if c ∈ childIDs then (EEXIST, s)
    else
      let parentIDs := getParentTagIDs s c
      if p ∈ parentIDs then (EEXIST, s)
      else
        if c ∈ ancestorsOf s (some p) then (1, s)
        else
          (0, updateParentTagIDs (updateChildTagIDs s p (childIDs ++ [c])) c (parentIDs ++ [p]))
  | _, _ => (ENOENT, s)

/-- `TFSManager::unnestTag`. -/
def unnestTag (s : St) (tagID parentTagID : Option Nat) : Int × St :=
  match tagID, parentTagID with
  | some c, some p =>
    let childIDs := getChildTagIDs s p
    if c ∈ childIDs then
      let parentIDs := getParentTagIDs s c
      if p ∈ parentIDs then
        (0, updateParentTagIDs (updateChildTagIDs s p (childIDs.erase c)) c (parentIDs.erase p))
      else (ENOENT, s)
    else (ENOENT, s)
  | _, _ => (ENOENT, s)

/-- `TFSManager::tagSingleFile`. -/
def tagSingleFile (s : St) (fileID : Nat) (tagID : Option Nat) : Int × St :=
  if getFilenameFromID s fileID ∈ getFilenamesUnderTagID s tagID then (EEXIST, s)
  else (0, updateTagFileIDs s tagID (getFileIDsUnderTagID s tagID ++ [fileID]))

/-- `TFSManager::untagSingleFile` (`none` for the file id is the C++
`""`, which is never found in an id list). -/
def untagSingleFile (s : St) (fileID : Option Nat) (tagID : Option Nat) : Int × St :=
  let fileIDs := getFileIDsUnderTagID s tagID
  match fileID with
  | some fid =>
    if fid ∈ fileIDs then (0, updateTagFileIDs s tagID (fileIDs.erase fid))
    else (ENOENT, s)
  | none => (ENOENT, s)

/-- Body of `tagFiles` after the tag has been resolved or created. -/
def tagFilesResolved (s : St) (parentFolderID : Option Nat) (name : String)
    (tagID : Option Nat) : Int × St :=
  match parentFolderID with
  | some pf =>
    match getFileID s name pf with
    | some fileID => tagSingleFile s fileID tagID
    | none =>
      match getFolderIDIn s name pf with
      | some folderID =>
        (getFileIDsInFolder s folderID).foldl
          (fun acc fid =>
            let r := tagSingleFile acc.2 fid tagID
            (if r.1 = EEXIST then EEXIST else acc.1, r.2))
          ((0 : Int), s)
      | none => (ENOENT, s)
  | none => (ENOENT, s)

/-- `TFSManager::tagFiles`. -/
def tagFiles (s : St) (filePath tag : String) : Int × St :=
  let pb := popBack (splitPathIntoParts filePath)
  let parentFolderID := getFolderID s pb.2
  match getTagID s tag with
  | some tagID => tagFilesResolved s parentFolderID pb.1 (some tagID)
  | none =>
    let c := createTag s tag
    if c.1 = 1 then (1, c.2)
    else tagFilesResolved c.2 parentFolderID pb.1 (getTagID c.2 tag)

/-- `TFSManager::untagFiles`. -/
def untagFiles (s : St) (filePath tag : String) : Int × St :=
  let pb := popBack (splitPathIntoParts filePath)
  let parentFolderID := getFolderID s pb.2
  match getTagID s tag, parentFolderID with
  | some tagID, some pf =>
    match getFileID s pb.1 pf with
    | some fileID => untagSingleFile s (some fileID) (some tagID)
    | none =>
      match getFolderIDIn s pb.1 pf with
      | some folderID =>
        (getFileIDsInFolder s folderID).foldl
          (fun acc fid =>
            let r := untagSingleFile acc.2 (some fid) (some tagID)
            (if r.1 = ENOENT then ENOENT else acc.1, r.2))
          ((0 : Int), s)
      | none => (ENOENT, s)
  | _, _ => (ENOENT, s)

/-- `TFSManager::renameTaggedPath`. -/
def renameTaggedPath (s : St) (oldPath newPath : String) : Int × St :=
  let oldParentTagID := getParentTagIDFromPath s oldPath
  let newParentTagID := getParentTagIDFromPath s newPath
  match oldParentTagID, newParentTagID with
  | some _, some _ =>
    let oldName := getFilename oldPath
    let newName := getFilename newPath
    let oldTagID := getTagID s oldName
    let newTagID := getTagID s newName
    let oldFileID := getTaggedFileID s oldParentTagID oldName
    let newFileID := getTaggedFileID s newParentTagID newName
    match oldFileID, newTagID, newFileID with
    | some ofid, none, none =>
      if oldName ≠ newName then (1, s)
      else
        let s1 := (untagSingleFile s (some ofid) oldParentTagID).2
        (0, (tagSingleFile s1 ofid newParentTagID).2)
    | _, _, _ =>
      match oldTagID, newFileID with
      | some ot, none =>
        if newTagID ≠ none ∧ newTagID ≠ some ot then (1, s)
        else
          let s2 :=
            if newParentTagID ≠ oldParentTagID then
              (nestTag (unnestTag s oldTagID oldParentTagID).2 oldTagID newParentTagID).2
            else s
          if newTagID = none then
            (0, { s2 with tags := s2.tags.map (fun r =>
                if r.tag_id == ot then { r with tag_name := newName } else r) })
          else (0, s2)
      | _, _ => (1, s)
  | _, _ => (ENOENT, s)

/-! ### Folder operations and file deletion -/

/-- `TFSManager::deleteFolder`. -/
def deleteFolder (s : St) (folderPath : String) : Int × St :=
  match getFolderID s (splitPathIntoParts folderPath) with
  | some folderID =>
    if isFolderEmpty s folderID then
      (0, { s with tags := s.tags.filter (fun r => !(r.tag_id == folderID)) })
    else (ENOTEMPTY, s)
  | none => (ENOENT, s)

/-- The reference-removal loop of `deleteFile`, one iteration per tag id:
drop the file id from the tag's `files_ids` when present, recording the
tag in `savedTagIDs`. -/
def removeRefsGo (fileID : Nat) : List Nat → St → List Nat → St × List Nat
  | [], s, sv => (s, sv)
  | tid :: tids, s, sv =>
    let fids := getFileIDsUnderTagID s (some tid)
    if fileID ∈ fids then
      removeRefsGo fileID tids (updateTagFileIDs s (some tid) (fids.erase fileID)) (sv ++ [tid])
    else removeRefsGo fileID tids s sv

/-- The reference-removal loop of `deleteFile` over all tags. -/
def deleteFileRemoveRefs (s : St) (fileID : Nat) : St × List Nat :=
  removeRefsGo fileID (getAllTagIDs s) s []

/-- The re-attachment loop at the end of `renamePath`: append the renamed
file's id to the `files_ids` of every saved tag. -/
def reattachGo (fileID : Nat) : List Nat → St → St
  | [], s => s
  | tid :: tids, s =>
    reattachGo fileID tids
      (updateTagFileIDs s (some tid) (getFileIDsUnderTagID s (some tid) ++ [fileID]))

/-- `TFSManager::deleteFile`.  `u` is the outcome of `unlink` on the blob
named by a hash under the storage root: `0` for success, otherwise the
`errno` reported by the failed call.  The third component is the
`savedTagIDs` output vector.  (`getFileID` succeeds whenever `getHash`
did, both being the first row with the same `WHERE` clause; the `none`
fallback is dead.) -/
def deleteFile (u : String → Int) (s : St) (filePath : String) : Int × St × List Nat :=
  let pb := popBack (splitPathIntoParts filePath)
  match getFolderID s pb.2 with
  | some parentFolderID =>
    match getHash s pb.1 parentFolderID with
    | some hash =>
      let rv : Int := if countHashGtOne s hash = false then u hash else 0
      if rv = 0 then
        match getFileID s pb.1 parentFolderID with
        | some fileID =>
          let rs := deleteFileRemoveRefs s fileID
          (0, { rs.1 with files := rs.1.files.filter (fun f => !(f.file_id == fileID)) }, rs.2)
        | none => (0, s, [])
      else (rv, s, [])
    | none => (1, s, [])
  | none => (1, s, [])

/-- `TFSManager::renamePath`.  The two branches binding an unresolved
destination parent folder id would raise `std::invalid_argument` in the
source (`std::stoi` of `""`); they are modelled as the generic failure
`(1, s)` and are not relied upon. -/
def renamePath (u : String → Int) (s : St) (oldPath newPath : String) : Int × St :=
  let opb := popBack (splitPathIntoParts oldPath)
  let oldParentFolderID := getFolderID s opb.2
  let oldFolderID := match oldParentFolderID with
    | some opf => getFolderIDIn s opb.1 opf
    | none => none
  let oldFileID := match oldParentFolderID with
    | some opf => getFileID s opb.1 opf
    | none => none
  let npb := popBack (splitPathIntoParts newPath)
  let newName := npb.1
  let newParentFolderID := getFolderID s npb.2
  let newFolderID := match newParentFolderID with
    | some npf => getFolderIDIn s newName npf
    | none => none
  let newFileID := match newParentFolderID with
    | some npf => getFileID s newName npf
    | none => none
  match oldFileID, newFolderID with
  | some ofid, none =>
    if (getFileTags s ofid).any
        (fun tag => newName ∈ getFilenamesUnderTagID s (getTagID s tag)) then
      (EEXIST, s)
    else
      let del : St × List Nat :=
        if newFileID ≠ none then
          let d := deleteFile u s newPath
          (d.2.1, d.2.2)
        else (s, [])
      match newParentFolderID with
      | some npf =>
        let s2 : St := { del.1 with files := del.1.files.map (fun f =>
            if f.file_id == ofid then
              { f with filename := newName, parent_folder := npf } else f) }
        (0, reattachGo ofid del.2 s2)
      | none => (1, s)
  | _, _ =>
    match oldFolderID, newFolderID, newFileID with
    | some ofol, none, none =>
      match newParentFolderID with
      | some npf =>
        (0, { s with tags := s.tags.map (fun r =>
            if r.tag_id == ofol then
              { r with tag_name := newName, parent_folder := (npf : Int) } else r) })
      | none => (1, s)
    | _, _, _ => (1, s)

/-! ### Search -/

/-- Insertion sort on ids, standing in for `std::sort`; the sorted
permutation of a list of naturals is unique, so the sorted vectors of the
source (decimal id strings under lexicographic order) and of the model
agree as multisets. -/
def insertSorted (a : Nat) : List Nat → List Nat
  | [] => [a]
  | b :: bs => if a ≤ b then a :: b :: bs else b :: insertSorted a bs

def sortIDs (l : List Nat) : List Nat :=
  l.foldr insertSorted []

/-- Drop the leading elements smaller than `a` from a sorted range. -/
def dropLtAux (a : Nat) : List Nat → List Nat
  | [] => []
  | b :: bs => if b < a then dropLtAux a bs else b :: bs

/-- `std::set_intersection` on two sorted ranges (the standard merge:
advance past the smaller head, output on equality), phrased by structural
recursion on the first range. -/
def sortedIntersect : List Nat → List Nat → List Nat
  | [], _ => []
  | a :: as, bs =>
    match dropLtAux a bs with
    | [] => []
    | b :: bs' =>
      if a < b then sortedIntersect as (b :: bs')
      else a :: sortedIntersect as bs'

/-- The loop of `findFileIDsWithTags` over the tags after the first.
`matches` and `result` are the two vectors of the source; the source's
`result.empty()` is a read that discards its value (where `clear()` was
evidently intended), so `result` keeps its contents and
`std::back_inserter` appends the next intersection after them — both
vectors continue as the same appended list, faithfully modelled here. -/
def findTagsLoop (s : St) : List String → List Nat → List Nat → List Nat
  | [], matchesV, _ => matchesV
  | t :: ts, matchesV, result =>
    match getTagID s t with
    | none => []
    | some tagID =>
      let fileIDs := getFileIDsUnderTagID s (some tagID)
      let result := result ++ sortedIntersect (sortIDs matchesV) (sortIDs fileIDs)
      findTagsLoop s ts result result

/-- `TFSManager::findFileIDsWithTags` (strict search).  The C++ accesses
`tags[0]` before its size check, so the empty list (undefined behaviour
in the source) is modelled by the size check alone. -/
def findFileIDsWithTags (s : St) (tags : List String) : List Nat :=
  match tags with
  | [] => []
  | t0 :: rest =>
    match getTagID s t0 with
    | none => []
    | some tagID => findTagsLoop s rest (getFileIDsUnderTagID s (some tagID)) []

/-- The accumulation loop of `findFileIDsWithAnyOfTags`: insert every
tag's file ids into the set, aborting (`none`) on an unknown tag. -/
def findAnyLoop (s : St) : List String → List Nat → Option (List Nat)
  | [], acc => some acc
  | t :: ts, acc =>
    match getTagID s t with
    | none => none
    | some tagID =>
      findAnyLoop s ts ((getFileIDsUnderTagID s (some tagID)).foldl (fun a i => insertS i a) acc)

/-- `TFSManager::findFileIDsWithAnyOfTags` (non-strict search): the
union, accumulated through a `std::set` and returned in set order
(modelled by a final sort; only the underlying set matters to the
claims). -/
def findFileIDsWithAnyOfTags (s : St) (tags : List String) : List Nat :=
  match tags with
  | [] => []
  | _ =>
    match findAnyLoop s tags [] with
    | none => []
    | some acc => sortIDs acc

/-! ### Reachable states

The operation alphabet of claims C4 and C5: the tag-graph-editing
operations as they are driven by the dispatcher (`QH_NEST`/`QH_UNNEST`
resolve their two CLI-supplied names with `getTagID` before calling
`nestTag`/`unnestTag`; the other operations receive path/name strings
directly). -/
inductive Reachable : St → Prop where
  | init : Reachable initSt
  | createTag (s : St) (path : String) : Reachable s → Reachable (createTag s path).2
  | deleteTag (s : St) (path : String) : Reachable s → Reachable (deleteTag s path).2
  | nestTag (s : St) (tag parent : String) : Reachable s →
      Reachable (nestTag s (getTagID s tag) (getTagID s parent)).2
  | unnestTag (s : St) (tag parent : String) : Reachable s →
      Reachable (unnestTag s (getTagID s tag) (getTagID s parent)).2
  | tagFiles (s : St) (path tag : String) : Reachable s → Reachable (tagFiles s path tag).2
  | untagFiles (s : St) (path tag : String) : Reachable s → Reachable (untagFiles s path tag).2
  | renameTaggedPath (s : St) (oldPath newPath : String) : Reachable s →
      Reachable (renameTaggedPath s oldPath newPath).2

/-- One edge of the `child_tags` graph: some row with id `a` lists `b`
among its children. -/
def childEdge (s : St) (a b : Nat) : Prop :=
  ∃ r ∈ s.tags, r.tag_id = a ∧ b ∈ r.child_tags

instance (s : St) (a b : Nat) : Decidable (childEdge s a b) := by
  unfold childEdge; infer_instance

/-- Acyclicity of the `child_tags` graph (property P4). -/
def AcyclicTags (s : St) : Prop :=
  ∀ t, ¬ Relation.TransGen (childEdge s) t t

/-- Edge symmetry of the nesting index (property P3). -/
def EdgeSym (s : St) : Prop :=
  ∀ r1 ∈ s.tags, ∀ r2 ∈ s.tags, r2.tag_id ∈ r1.child_tags ↔ r1.tag_id ∈ r2.parent_tags

instance (s : St) : Decidable (EdgeSym s) := by
  unfold EdgeSym; infer_instance

/-! ## Generic lemmas about row lookups and updates -/

theorem find?_map_pres {α : Type} (f : α → α) (p : α → Bool)
    (hp : ∀ a, p (f a) = p a) :
    ∀ l : List α, (l.map f).find? p = (l.find? p).map f := by
  intro l
  induction l with
  | nil => rfl
  | cons a l ih =>
    simp only [List.map_cons, List.find?]
    rw [hp a]
    cases h : p a with
    | true => rfl
    | false => exact ih

theorem lookupTag_updateChildTagIDs (s : St) (t l p) :
    lookupTag (updateChildTagIDs s t l) p
      = (lookupTag s p).map (fun r => if r.tag_id == t then { r with child_tags := l } else r) := by
  unfold lookupTag updateChildTagIDs
  exact find?_map_pres _ _ (fun a => by split <;> rfl) s.tags

theorem lookupTag_updateParentTagIDs (s : St) (t l p) :
    lookupTag (updateParentTagIDs s t l) p
      = (lookupTag s p).map (fun r => if r.tag_id == t then { r with parent_tags := l } else r) := by
  unfold lookupTag updateParentTagIDs
  exact find?_map_pres _ _ (fun a => by split <;> rfl) s.tags

theorem lookupTag_updateTagFileIDs (s : St) (t l p) :
    lookupTag (updateTagFileIDs s (some t) l) p
      = (lookupTag s p).map (fun r => if r.tag_id == t then { r with files_ids := l } else r) := by
  unfold lookupTag updateTagFileIDs
  exact find?_map_pres _ _ (fun a => by split <;> rfl) s.tags

theorem lookupTag_id (s : St) (t : Nat) (r : TagRow) (h : lookupTag s t = some r) :
    r.tag_id = t := by
  have := List.find?_some h
  simpa using this

theorem lookupTag_mem (s : St) (t : Nat) (r : TagRow) (h : lookupTag s t = some r) :
    r ∈ s.tags :=
  List.mem_of_find?_eq_some h

theorem lookupTag_isSome (s : St) (t : Nat) (h : ∃ r ∈ s.tags, r.tag_id = t) :
    ∃ r, lookupTag s t = some r := by
  rcases h with ⟨r, hr, ht⟩
  have : (s.tags.find? (fun r => r.tag_id == t)).isSome := by
    rw [List.find?_isSome]
    exact ⟨r, hr, by simp [ht]⟩
  rcases Option.isSome_iff_exists.mp this with ⟨r', hr'⟩
  exact ⟨r', hr'⟩

/-- Children of the updated row, when the row exists. -/
theorem getChildTagIDs_update_self (s : St) (p : Nat) (l : List Nat)
    (hp : ∃ r ∈ s.tags, r.tag_id = p) :
    getChildTagIDs (updateChildTagIDs s p l) p = l := by
  rcases lookupTag_isSome s p hp with ⟨r, hr⟩
  have hid : r.tag_id = p := lookupTag_id s p r hr
  unfold getChildTagIDs
  rw [lookupTag_updateChildTagIDs, hr]
  simp [hid]

/-- A parent-tags update does not change any `child_tags` column. -/
theorem getChildTagIDs_updateParent (s : St) (t : Nat) (l : List Nat) (p : Nat) :
    getChildTagIDs (updateParentTagIDs s t l) p = getChildTagIDs s p := by
  unfold getChildTagIDs
  rw [lookupTag_updateParentTagIDs]
  cases h : lookupTag s p with
  | none => rfl
  | some r => dsimp only [Option.map]; split <;> rfl

/-- A child-tags update does not change any `parent_tags` column. -/
theorem getParentTagIDs_updateChild (s : St) (t : Nat) (l : List Nat) (p : Nat) :
    getParentTagIDs (updateChildTagIDs s t l) p = getParentTagIDs s p := by
  unfold getParentTagIDs
  rw [lookupTag_updateChildTagIDs]
  cases h : lookupTag s p with
  | none => rfl
  | some r => dsimp only [Option.map]; split <;> rfl

theorem getParentTagIDs_update_self (s : St) (c : Nat) (l : List Nat)
    (hc : ∃ r ∈ s.tags, r.tag_id = c) :
    getParentTagIDs (updateParentTagIDs s c l) c = l := by
  rcases lookupTag_isSome s c hc with ⟨r, hr⟩
  have hid : r.tag_id = c := lookupTag_id s c r hr
  unfold getParentTagIDs
  rw [lookupTag_updateParentTagIDs, hr]
  simp [hid]

/-- Row existence (by id) survives a child-tags update. -/
theorem exists_row_updateChild (s : St) (t : Nat) (l : List Nat) (c : Nat)
    (h : ∃ r ∈ s.tags, r.tag_id = c) :
    ∃ r ∈ (updateChildTagIDs s t l).tags, r.tag_id = c := by
  rcases h with ⟨r, hr, hid⟩
  refine ⟨if r.tag_id == t then { r with child_tags := l } else r, ?_, ?_⟩
  · exact List.mem_map_of_mem _ hr
  · split <;> simpa using hid

/-! ## Search claims (C1, C2)

A well-formed store with three tags `a`, `b`, `c` where
`files_ids(a) = files_ids(b) = [1]` and `files_ids(c) = []`. -/

def searchSt : St :=
  { tags := [
      { tag_id := 0, tag_name := "__TaggableFS__//", parent_folder := -1,
        parent_tags := [], child_tags := [2, 3, 4], files_ids := [] },
      { tag_id := 1, tag_name := "/", parent_folder := -1,
        parent_tags := [], child_tags := [], files_ids := [] },
      { tag_id := 2, tag_name := "a", parent_folder := 0,
        parent_tags := [0], child_tags := [], files_ids := [1] },
      { tag_id := 3, tag_name := "b", parent_folder := 0,
        parent_tags := [0], child_tags := [], files_ids := [1] },
      { tag_id := 4, tag_name := "c", parent_folder := 0,
        parent_tags := [0], child_tags := [], files_ids := [] } ],
    files := [ { file_id := 1, filename := "x", hash := "AB12CD", parent_folder := 1 } ] }

/-- **C1** — refuted on the code: for `T = [a, b, c]` the strict search
returns `[1]` although the intersection of the three `files_ids` lists is
empty (`1` is not even tagged with `c`).  The cause is the source's
`result.empty()` (a value-discarding read where `result.clear()` was
intended), so from the third tag on, the previous intersection is kept in
front of the new one. -/
theorem findFileIDsWithTags_not_intersection :
    findFileIDsWithTags searchSt ["a", "b", "c"] = [1] ∧
    getTagID searchSt "c" = some 4 ∧
    1 ∉ getFileIDsUnderTagID searchSt (getTagID searchSt "c") := by
  decide

/-- **C2** — refuted on the code: `[c, b, a]` is a permutation of
`[a, b, c]`, yet the strict search returns `[1]` on one ordering and `[]`
on the other (same `result.empty()` slip as in C1), so the result is not
permutation-invariant as a multiset. -/
theorem findFileIDsWithTags_not_permutation_invariant :
    List.Perm ["c", "b", "a"] ["a", "b", "c"] ∧
    findFileIDsWithTags searchSt ["a", "b", "c"] = [1] ∧
    findFileIDsWithTags searchSt ["c", "b", "a"] = [] ∧
    ¬ List.Perm (findFileIDsWithTags searchSt ["a", "b", "c"])
        (findFileIDsWithTags searchSt ["c", "b", "a"]) := by
  decide

/-! ## Acyclicity and edge symmetry (C4, C5) -/

/-- The state after `createTag "A"` followed by the operator command
`--nest / A` (`QH_NEST` resolves both names with `getTagID`, and `"/"`
resolves to the sentinel root id `0`). -/
def cycleSt : St :=
  let s1 := (createTag initSt "A").2
  (nestTag s1 (getTagID s1 "/") (getTagID s1 "A")).2

/-- **C4** — refuted on the code: the two-operation sequence
`createTag "A"; nestTag (getTagID "/") (getTagID "A")` is reachable from
the initial two-root state and produces the directed cycle `0 → 2 → 0`
in the `child_tags` graph.  The cycle check of `nestTag` never inserts
the reserved id `0` into the ancestor set, so nesting the root path `/`
under a tag passes the check and closes a cycle with the root's existing
child edge. -/
theorem reachable_child_graph_cycle :
    Reachable cycleSt ∧ childEdge cycleSt 0 2 ∧ childEdge cycleSt 2 0 ∧
    ¬ AcyclicTags cycleSt := by
  refine ⟨?_, ?_, ?_, ?_⟩
  · exact Reachable.nestTag _ "/" "A" (Reachable.createTag _ "A" Reachable.init)
  · decide
  · decide
  · intro h
    exact h 0 (Relation.TransGen.head (show childEdge cycleSt 0 2 by decide)
      (Relation.TransGen.single (show childEdge cycleSt 2 0 by decide)))

/-- The state after `createTag "B"; createTag "A"; createTag "/A/B"`
(the last one is a tag-view `mkdir /A/B` while a top-level tag named `B`
already exists). -/
def asymSt : St :=
  (createTag (createTag (createTag initSt "B").2 "A").2 "/A/B").2

/-- **C5** — refuted on the code: the three-operation sequence
`createTag "B"; createTag "A"; createTag "/A/B"` is reachable, succeeds
(`createTag` only checks the full path resolution, not the leaf name),
and leaves the index asymmetric: after inserting the new row named `B`,
`createTag` re-resolves the name `B`, finds the *older* tag `B` (id 2),
and appends id 2 — not the new row's id — to `A`'s `child_tags`, while
tag 2's `parent_tags` still lacks `A`. -/
theorem createTag_breaks_edge_symmetry :
    Reachable asymSt ∧
    (createTag (createTag (createTag initSt "B").2 "A").2 "/A/B").1 = 0 ∧
    ¬ EdgeSym asymSt := by
  refine ⟨?_, ?_, ?_⟩
  · exact Reachable.createTag _ "/A/B"
      (Reachable.createTag _ "A" (Reachable.createTag _ "B" Reachable.init))
  · decide
  · decide

/-! ## deleteFolder (C7) -/

theorem isFolderEmpty_iff (s : St) (folderID : Nat) :
    isFolderEmpty s folderID = true ↔ ¬ ∃ f ∈ s.files, f.parent_folder = folderID := by
  unfold isFolderEmpty
  simp [List.any_eq_true]

/-- **C7** — `deleteFolder` fails with `ENOENT` when the path does not
resolve to a folder; when it resolves to `fid`, it fails with
`ENOTEMPTY` exactly when some row of the `files` table has `fid` as its
`parent_folder` (the decision consults only the `files` table), and
otherwise it deletes precisely the rows with id `fid` from the `tags`
table, leaving the `files` table unchanged. -/
theorem deleteFolder_spec (s : St) (path : String) :
    (getFolderID s (splitPathIntoParts path) = none → deleteFolder s path = (ENOENT, s)) ∧
    (∀ fid, getFolderID s (splitPathIntoParts path) = some fid →
      (((∃ f ∈ s.files, f.parent_folder = fid) → deleteFolder s path = (ENOTEMPTY, s)) ∧
       ((¬ ∃ f ∈ s.files, f.parent_folder = fid) →
         (deleteFolder s path).1 = 0 ∧
         (deleteFolder s path).2.files = s.files ∧
         ∀ r : TagRow, r ∈ (deleteFolder s path).2.tags ↔ r ∈ s.tags ∧ r.tag_id ≠ fid))) := by
  constructor
  · intro h
    unfold deleteFolder
    rw [h]
  · intro fid hfid
    constructor
    · intro hne
      unfold deleteFolder
      rw [hfid]
      have : isFolderEmpty s fid = false := by
        cases h : isFolderEmpty s fid with
        | true => exact absurd hne ((isFolderEmpty_iff s fid).mp h)
        | false => rfl
      simp [this]
    · intro hemp
      have he : isFolderEmpty s fid = true := (isFolderEmpty_iff s fid).mpr hemp
      unfold deleteFolder
      rw [hfid]
      simp only [he, if_true]
      refine ⟨trivial, trivial, ?_⟩
      intro r
      simp [List.mem_filter]

/-- Witness for C7: deleting the non-empty root folder of `searchSt`
fails with `ENOTEMPTY`. -/
theorem deleteFolder_spec_witness : deleteFolder searchSt "/" = (ENOTEMPTY, searchSt) :=
  ((deleteFolder_spec searchSt "/").2 1 (by decide)).1 (by decide)

/-! ## deleteFile atomicity on unlink failure (C9) -/

/-- **C9** — when `deleteFile` resolves an existing file that is the last
`files` row referencing its blob (`COUNT(*) > 1` is false) and the
`unlink` of the blob fails with error `e ≠ 0`, it returns `e` and leaves
the store untouched: the file row is kept and no tag's `files_ids` is
modified (the whole state is returned unchanged, and the saved-tags
output is empty). -/
theorem deleteFile_unlink_failure (u : String → Int) (s : St) (path : String)
    (pf : Nat) (h : String) (e : Int)
    (hpf : getFolderID s (popBack (splitPathIntoParts path)).2 = some pf)
    (hh : getHash s (popBack (splitPathIntoParts path)).1 pf = some h)
    (hlast : countHashGtOne s h = false)
    (hu : u h = e) (he : e ≠ 0) :
    deleteFile u s path = (e, s, []) := by
  simp [deleteFile, hpf, hh, hlast, hu, he]

/-- Unlink oracle failing (with `EIO = 5`) exactly on the blob of the
file of `searchSt`. -/
def failOnAB12CD : String → Int :=
  fun h => if h = "AB12CD" then 5 else 0

/-- Witness for C9 at a concrete store and failing unlink. -/
theorem deleteFile_unlink_failure_witness :
    deleteFile failOnAB12CD searchSt "/x" = (5, searchSt, []) :=
  deleteFile_unlink_failure failOnAB12CD searchSt "/x" 1 "AB12CD" 5
    (by decide) (by decide) (by decide) (by decide) (by decide)

/-! ## nestTag (C3) -/

theorem getAncestorTagIDs_succ (s : St) (n t : Nat) (anc : List Nat) :
    getAncestorTagIDs s (n + 1) t anc =
      if t = 0 then anc
      else (getParentTagIDs s t).foldl (fun a q => getAncestorTagIDs s n q a) (insertS t anc) :=
  rfl

/-- The ancestor accumulator only ever grows. -/
theorem getAncestorTagIDs_mono (s : St) :
    ∀ (fuel t : Nat) (anc : List Nat) (x : Nat), x ∈ anc → x ∈ getAncestorTagIDs s fuel t anc := by
  intro fuel
  induction fuel with
  | zero => intro t anc x hx; simpa [getAncestorTagIDs] using hx
  | succ n ih =>
    intro t anc x hx
    rw [getAncestorTagIDs_succ]
    by_cases ht : t = 0
    · simpa [ht] using hx
    · rw [if_neg ht]
      have hx' : x ∈ insertS t anc := by
        unfold insertS
        split
        · exact hx
        · exact List.mem_append_left _ hx
      suffices hs : ∀ (l acc : List Nat), x ∈ acc →
          x ∈ l.foldl (fun a q => getAncestorTagIDs s n q a) acc from hs _ _ hx'
      intro l
      induction l with
      | nil => intro acc h; simpa using h
      | cons q qs ihl =>
        intro acc h
        simp only [List.foldl_cons]
        exact ihl _ (ih q acc x h)

/-- The computed ancestor set of a non-root tag contains the tag
itself. -/
theorem mem_ancestorsOf_self (s : St) (p : Nat) (hp : p ≠ 0) :
    p ∈ ancestorsOf s (some p) := by
  unfold ancestorsOf ancFuel
  show p ∈ getAncestorTagIDs s (s.tags.length + 1 + 1) p []
  rw [getAncestorTagIDs_succ, if_neg hp]
  have hmem : p ∈ insertS p [] := by simp [insertS]
  suffices hs : ∀ (l acc : List Nat), p ∈ acc →
      p ∈ l.foldl (fun a q => getAncestorTagIDs s (s.tags.length + 1) q a) acc from
    hs _ _ hmem
  intro l
  induction l with
  | nil => intro acc h; simpa using h
  | cons q qs ihl =>
    intro acc h
    simp only [List.foldl_cons]
    exact ihl _ (getAncestorTagIDs_mono s _ q acc p h)

/-- **C3** — `nestTag` on a pair of existing tags: `ENOENT` when either
argument did not resolve; `EEXIST` when the edge is already recorded on
either side of the index; otherwise it fails the cycle check (returning
`1` with the state unchanged) exactly when the child is in the ancestor
set of the parent computed by `getAncestorTagIDs` (a set that contains
the parent itself, the parent being a proper tag, i.e. not the reserved
root id `0`); on success the new edge is recorded on both sides.  Every
failure returns the state unchanged. -/
theorem nestTag_spec (s : St) (c p : Nat)
    (hc : ∃ r ∈ s.tags, r.tag_id = c) (hp : ∃ r ∈ s.tags, r.tag_id = p) :
    (∀ x, nestTag s none x = (ENOENT, s)) ∧
    (∀ x, nestTag s x none = (ENOENT, s)) ∧
    ((c ∈ getChildTagIDs s p ∨ p ∈ getParentTagIDs s c) →
      nestTag s (some c) (some p) = (EEXIST, s)) ∧
    (c ∉ getChildTagIDs s p → p ∉ getParentTagIDs s c →
      ((c ∈ ancestorsOf s (some p) ↔ nestTag s (some c) (some p) = (1, s)) ∧
       (c ∉ ancestorsOf s (some p) →
         (nestTag s (some c) (some p)).1 = 0 ∧
         c ∈ getChildTagIDs (nestTag s (some c) (some p)).2 p ∧
         p ∈ getParentTagIDs (nestTag s (some c) (some p)).2 c))) ∧
    (p ≠ 0 → p ∈ ancestorsOf s (some p)) := by
  refine ⟨?_, ?_, ?_, ?_, ?_⟩
  · intro x; cases x <;> rfl
  · intro x; cases x <;> rfl
  · intro hmem
    rcases hmem with hm | hm
    · simp [nestTag, hm]
    · by_cases hcc : c ∈ getChildTagIDs s p
      · simp [nestTag, hcc]
      · simp [nestTag, hcc, hm]
  · intro h1 h2
    constructor
    · constructor
      · intro hanc
        simp [nestTag, h1, h2, hanc]
      · intro heq
        by_contra hanc
        have hf : (nestTag s (some c) (some p)).1 = 0 := by
          simp [nestTag, h1, h2, hanc]
        rw [heq] at hf
        simp at hf
    · intro hanc
      have hstep : nestTag s (some c) (some p)
          = (0, updateParentTagIDs (updateChildTagIDs s p (getChildTagIDs s p ++ [c])) c
              (getParentTagIDs s c ++ [p])) := by
        simp [nestTag, h1, h2, hanc]
      refine ⟨by rw [hstep], ?_, ?_⟩
      · rw [hstep]
        dsimp only
        rw [getChildTagIDs_updateParent, getChildTagIDs_update_self s p _ hp]
        simp
      · rw [hstep]
        dsimp only
        rw [getParentTagIDs_update_self _ c _ (exists_row_updateChild s p _ c hc)]
        simp
  · exact fun hp0 => mem_ancestorsOf_self s p hp0

/-- Witness for C3: nesting tag `b` (id 3) under tag `a` (id 2) in
`searchSt` succeeds and records the edge on both sides. -/
theorem nestTag_spec_witness :
    (nestTag searchSt (some 3) (some 2)).1 = 0 ∧
    3 ∈ getChildTagIDs (nestTag searchSt (some 3) (some 2)).2 2 ∧
    2 ∈ getParentTagIDs (nestTag searchSt (some 3) (some 2)).2 3 :=
  ((nestTag_spec searchSt 3 2 (by decide) (by decide)).2.2.2.1 (by decide) (by decide)).2
    (by decide)

/-! ## renameTaggedPath on tagged files (C8) -/

theorem getTaggedFileID_some (s : St) (t : Nat) (name : String) (a : Nat)
    (h : getTaggedFileID s (some t) name = some a) :
    a ∈ getFileIDsUnderTagID s (some t) ∧ getFilenameFromID s a = name := by
  unfold getTaggedFileID at h
  refine ⟨List.mem_of_find?_eq_some h, ?_⟩
  have := List.find?_some h
  simpa using this

theorem getTaggedFileID_none (s : St) (t : Nat) (name : String)
    (h : getTaggedFileID s (some t) name = none) :
    ∀ fid ∈ getFileIDsUnderTagID s (some t), getFilenameFromID s fid ≠ name := by
  unfold getTaggedFileID at h
  intro fid hf
  have := List.find?_eq_none.mp h fid hf
  simpa using this

theorem getFilenameFromID_updateTagFileIDs (s : St) (t : Option Nat) (l : List Nat) (fid : Nat) :
    getFilenameFromID (updateTagFileIDs s t l) fid = getFilenameFromID s fid := by
  cases t <;> rfl

theorem getFileIDsUnderTagID_update_self (s : St) (t : Nat) (l : List Nat)
    (h : ∃ r ∈ s.tags, r.tag_id = t) :
    getFileIDsUnderTagID (updateTagFileIDs s (some t) l) (some t) = l := by
  rcases lookupTag_isSome s t h with ⟨r, hr⟩
  have hid : r.tag_id = t := lookupTag_id s t r hr
  simp only [getFileIDsUnderTagID]
  rw [lookupTag_updateTagFileIDs, hr]
  simp [hid]

theorem getFileIDsUnderTagID_update_ne (s : St) (t : Nat) (l : List Nat) (u : Nat)
    (hne : u ≠ t) :
    getFileIDsUnderTagID (updateTagFileIDs s (some t) l) (some u)
      = getFileIDsUnderTagID s (some u) := by
  simp only [getFileIDsUnderTagID]
  rw [lookupTag_updateTagFileIDs]
  cases h : lookupTag s u with
  | none => rfl
  | some r =>
    have hid : r.tag_id = u := lookupTag_id s u r h
    simp [hid, hne]

theorem exists_row_updateTagFileIDs (s : St) (t : Nat) (l : List Nat) (c : Nat)
    (h : ∃ r ∈ s.tags, r.tag_id = c) :
    ∃ r ∈ (updateTagFileIDs s (some t) l).tags, r.tag_id = c := by
  rcases h with ⟨r, hr, hid⟩
  refine ⟨if r.tag_id == t then { r with files_ids := l } else r, ?_, ?_⟩
  · exact List.mem_map_of_mem _ hr
  · split <;> simpa using hid

theorem exists_row_of_fileIDs_mem (s : St) (t : Nat) (x : Nat)
    (h : x ∈ getFileIDsUnderTagID s (some t)) :
    ∃ r ∈ s.tags, r.tag_id = t := by
  simp only [getFileIDsUnderTagID] at h
  cases hl : lookupTag s t with
  | none => rw [hl] at h; simp at h
  | some r => exact ⟨r, lookupTag_mem s t r hl, lookupTag_id s t r hl⟩

/-- **C8** — `renameTaggedPath` moving a tagged file: when the old path
resolves to a file tagged under the old parent tag and the new leaf names
neither an existing tag nor a file tagged under the new parent tag, a
differing leaf name fails (`1`, state unchanged), while an equal leaf
name succeeds (`0`), untags the file from the old parent tag and tags it
with the new parent tag. -/
theorem renameTaggedPath_file_move (s : St) (oldPath newPath : String) (op np a : Nat)
    (hop : getParentTagIDFromPath s oldPath = some op)
    (hnp : getParentTagIDFromPath s newPath = some np)
    (ha : getTaggedFileID s (some op) (getFilename oldPath) = some a)
    (hnt : getTagID s (getFilename newPath) = none)
    (hnf : getTaggedFileID s (some np) (getFilename newPath) = none)
    (hnprow : ∃ r ∈ s.tags, r.tag_id = np)
    (hnodup : (getFileIDsUnderTagID s (some op)).Nodup) :
    (getFilename oldPath ≠ getFilename newPath → renameTaggedPath s oldPath newPath = (1, s)) ∧
    (getFilename oldPath = getFilename newPath →
      (renameTaggedPath s oldPath newPath).1 = 0 ∧
      a ∈ getFileIDsUnderTagID (renameTaggedPath s oldPath newPath).2 (some np) ∧
      (op ≠ np → a ∉ getFileIDsUnderTagID (renameTaggedPath s oldPath newPath).2 (some op))) := by
  have hmem : a ∈ getFileIDsUnderTagID s (some op) := (getTaggedFileID_some s op _ a ha).1
  have hname : getFilenameFromID s a = getFilename oldPath := (getTaggedFileID_some s op _ a ha).2
  have hoprow : ∃ r ∈ s.tags, r.tag_id = op := exists_row_of_fileIDs_mem s op a hmem
  constructor
  · intro hne
    simp [renameTaggedPath, hop, hnp, ha, hnt, hnf, hne]
  · intro heq
    have ha' : getTaggedFileID s (some op) (getFilename newPath) = some a := by
      rw [← heq]; exact ha
    have hstep : renameTaggedPath s oldPath newPath
        = (0, (tagSingleFile (untagSingleFile s (some a) (some op)).2 a (some np)).2) := by
      simp [renameTaggedPath, hop, hnp, ha, ha', hnt, hnf, heq]
    have huntag : (untagSingleFile s (some a) (some op)).2
        = updateTagFileIDs s (some op) ((getFileIDsUnderTagID s (some op)).erase a) := by
      simp [untagSingleFile, hmem]
    have hfn1 : getFilenameFromID (untagSingleFile s (some a) (some op)).2
        = getFilenameFromID s := by
      rw [huntag]
      funext fid
      exact getFilenameFromID_updateTagFileIDs s _ _ fid
    -- the new-parent file list after untagging is a sublist of the original one
    have hsub : List.Sublist
        (getFileIDsUnderTagID (untagSingleFile s (some a) (some op)).2 (some np))
        (getFileIDsUnderTagID s (some np)) := by
      rw [huntag]
      by_cases hopnp : op = np
      · subst hopnp
        rw [getFileIDsUnderTagID_update_self s op _ hoprow]
        exact List.erase_sublist a _
      · rw [getFileIDsUnderTagID_update_ne s op _ np (fun h => hopnp h.symm)]
    have hnomatch : getFilenameFromID (untagSingleFile s (some a) (some op)).2 a
        ∉ getFilenamesUnderTagID (untagSingleFile s (some a) (some op)).2 (some np) := by
      rw [hfn1, hname, heq]
      unfold getFilenamesUnderTagID
      rw [hfn1]
      intro hmm
      rcases List.mem_map.mp hmm with ⟨fid, hfid, hfn⟩
      exact getTaggedFileID_none s np _ hnf fid (hsub.subset hfid) hfn
    have htag : (tagSingleFile (untagSingleFile s (some a) (some op)).2 a (some np)).2
        = updateTagFileIDs (untagSingleFile s (some a) (some op)).2 (some np)
            (getFileIDsUnderTagID (untagSingleFile s (some a) (some op)).2 (some np) ++ [a]) := by
      simp [tagSingleFile, hnomatch]
    refine ⟨by rw [hstep], ?_, ?_⟩
    · rw [hstep]
      dsimp only
      rw [htag]
      rw [getFileIDsUnderTagID_update_self]
      · simp
      · rw [huntag]
        exact exists_row_updateTagFileIDs s op _ np hnprow
    · intro hopnp
      rw [hstep]
      dsimp only
      rw [htag]
      rw [getFileIDsUnderTagID_update_ne _ np _ op hopnp]
      rw [huntag, getFileIDsUnderTagID_update_self s op _ hoprow]
      intro hmm
      exact absurd (List.Nodup.mem_erase_iff hnodup |>.mp hmm).1 (by simp)

/-- Witness for C8: in `searchSt`, renaming `/a/x` to `/c/x` moves file 1
from tag `a` (id 2) to tag `c` (id 4). -/
theorem renameTaggedPath_file_move_witness :
    (renameTaggedPath searchSt "/a/x" "/c/x").1 = 0 ∧
    1 ∈ getFileIDsUnderTagID (renameTaggedPath searchSt "/a/x" "/c/x").2 (some 4) ∧
    (2 ≠ 4 → 1 ∉ getFileIDsUnderTagID (renameTaggedPath searchSt "/a/x" "/c/x").2 (some 2)) :=
  (renameTaggedPath_file_move searchSt "/a/x" "/c/x" 2 4 1 (by decide) (by decide) (by decide)
    (by decide) (by decide) (by decide) (by decide)).2 (by decide)

/-! ## renamePath over an existing destination (C6) -/

/-- With duplicate-free ids, the first-row lookup of a member row's id
returns that row. -/
theorem lookupTag_of_mem_nodup (s : St)
    (hN : (s.tags.map (fun r => r.tag_id)).Nodup) (r : TagRow) (hr : r ∈ s.tags) :
    lookupTag s r.tag_id = some r := by
  unfold lookupTag
  suffices hgen : ∀ l : List TagRow, (l.map (fun r => r.tag_id)).Nodup → r ∈ l →
      l.find? (fun x => x.tag_id == r.tag_id) = some r from hgen s.tags hN hr
  intro l
  induction l with
  | nil => intro _ h; simp at h
  | cons x xs ih =>
    intro hnd hmem
    rw [List.map_cons] at hnd
    have hpair := List.nodup_cons.mp hnd
    rcases List.mem_cons.mp hmem with rfl | hmem'
    · simp [List.find?]
    · have hx : x.tag_id ≠ r.tag_id := by
        intro he
        exact hpair.1 (he ▸ List.mem_map_of_mem (fun r => r.tag_id) hmem')
      simp only [List.find?]
      rw [show (x.tag_id == r.tag_id) = false by simp [hx]]
      exact ih hpair.2 hmem'

/-- With duplicate-free ids, the `files_ids` read of a member row's id is
that row's list. -/
theorem getFileIDs_eq_row (s : St)
    (hN : (s.tags.map (fun r => r.tag_id)).Nodup) (r : TagRow) (hr : r ∈ s.tags) :
    getFileIDsUnderTagID s (some r.tag_id) = r.files_ids := by
  simp only [getFileIDsUnderTagID, lookupTag_of_mem_nodup s hN r hr]

theorem map_tagId_of_pres (f : TagRow → TagRow) (hf : ∀ r, (f r).tag_id = r.tag_id) :
    ∀ l : List TagRow, (l.map f).map (fun r => r.tag_id) = l.map (fun r => r.tag_id) := by
  intro l
  induction l with
  | nil => rfl
  | cons x xs ih => simp [hf, ih]

theorem map_tagId_updateTagFileIDs (s : St) (t : Nat) (l : List Nat) :
    (updateTagFileIDs s (some t) l).tags.map (fun r => r.tag_id)
      = s.tags.map (fun r => r.tag_id) :=
  map_tagId_of_pres _ (fun r => by split <;> rfl) s.tags

theorem getAllTagIDs_nodup (s : St) (hN : (s.tags.map (fun r => r.tag_id)).Nodup) :
    (getAllTagIDs s).Nodup := by
  unfold getAllTagIDs
  exact hN.sublist ((List.filter_sublist s.tags).map _)

theorem mem_getAllTagIDs (s : St) (r : TagRow) (hr : r ∈ s.tags)
    (hpf : r.parent_folder = 0) : r.tag_id ∈ getAllTagIDs s := by
  unfold getAllTagIDs
  exact List.mem_map_of_mem _ (List.mem_filter.mpr ⟨hr, by simp [hpf]⟩)

/-- Characterisation of the reference-removal loop: each row whose id is
among the (duplicate-free) visited ids and whose list contains the file
id gets it erased, and exactly the visited tags that contained the id
are appended to `savedTagIDs`. -/
theorem removeRefsGo_spec (fid : Nat) :
    ∀ (tids : List Nat) (s0 : St) (sv : List Nat),
      tids.Nodup → (s0.tags.map (fun r => r.tag_id)).Nodup →
      (removeRefsGo fid tids s0 sv).1.tags
          = s0.tags.map (fun r =>
              if r.tag_id ∈ tids ∧ fid ∈ r.files_ids then
                { r with files_ids := r.files_ids.erase fid } else r) ∧
      (removeRefsGo fid tids s0 sv).2
          = sv ++ tids.filter (fun t => decide (fid ∈ getFileIDsUnderTagID s0 (some t))) := by
  intro tids
  induction tids with
  | nil =>
    intro s0 sv _ _
    exact ⟨by simp [removeRefsGo], by simp [removeRefsGo]⟩
  | cons t ts ih =>
    intro s0 sv hnd hN
    have hts : t ∉ ts := (List.nodup_cons.mp hnd).1
    have hnd' : ts.Nodup := (List.nodup_cons.mp hnd).2
    by_cases hin : fid ∈ getFileIDsUnderTagID s0 (some t)
    · have hstep : removeRefsGo fid (t :: ts) s0 sv
          = removeRefsGo fid ts
              (updateTagFileIDs s0 (some t) ((getFileIDsUnderTagID s0 (some t)).erase fid))
              (sv ++ [t]) := by
        simp [removeRefsGo, hin]
      have hN1 : ((updateTagFileIDs s0 (some t)
          ((getFileIDsUnderTagID s0 (some t)).erase fid)).tags.map (fun r => r.tag_id)).Nodup := by
        rw [map_tagId_updateTagFileIDs]; exact hN
      rcases ih (updateTagFileIDs s0 (some t) ((getFileIDsUnderTagID s0 (some t)).erase fid))
        (sv ++ [t]) hnd' hN1 with ⟨ih1, ih2⟩
      constructor
      · rw [hstep, ih1]
        show (s0.tags.map _).map _ = _
        rw [List.map_map]
        apply List.map_congr_left
        intro r hr
        simp only [Function.comp]
        by_cases hrt : r.tag_id = t
        · have hfr : getFileIDsUnderTagID s0 (some t) = r.files_ids := by
            rw [← hrt]; exact getFileIDs_eq_row s0 hN r hr
          have hfid : fid ∈ r.files_ids := hfr ▸ hin
          simp [hrt, hts, hfid, hfr]
        · simp [hrt]
      · rw [hstep, ih2]
        have hfilter : ts.filter (fun u => decide (fid ∈ getFileIDsUnderTagID
            (updateTagFileIDs s0 (some t) ((getFileIDsUnderTagID s0 (some t)).erase fid))
            (some u)))
            = ts.filter (fun u => decide (fid ∈ getFileIDsUnderTagID s0 (some u))) := by
          apply List.filter_congr
          intro u hu
          rw [getFileIDsUnderTagID_update_ne s0 t _ u (fun he => hts (he ▸ hu))]
        rw [hfilter, List.filter_cons, if_pos (decide_eq_true hin)]
        simp
    · have hstep : removeRefsGo fid (t :: ts) s0 sv = removeRefsGo fid ts s0 sv := by
        simp [removeRefsGo, hin]
      rcases ih s0 sv hnd' hN with ⟨ih1, ih2⟩
      constructor
      · rw [hstep, ih1]
        apply List.map_congr_left
        intro r hr
        by_cases hrt : r.tag_id = t
        · have hfr : getFileIDsUnderTagID s0 (some t) = r.files_ids := by
            rw [← hrt]; exact getFileIDs_eq_row s0 hN r hr
          have hfid : fid ∉ r.files_ids := fun h => hin (hfr ▸ h)
          simp [hrt, hts, hfid]
        · simp [hrt]
      · rw [hstep, ih2, List.filter_cons, if_neg]
        simp only [decide_eq_true_eq]
        exact hin

/-- Characterisation of the re-attachment loop: the file id is appended
to the `files_ids` of each row whose id is among the (duplicate-free)
visited ids. -/
theorem reattachGo_spec (fid : Nat) :
    ∀ (tids : List Nat) (s0 : St),
      tids.Nodup → (s0.tags.map (fun r => r.tag_id)).Nodup →
      (reattachGo fid tids s0).tags
        = s0.tags.map (fun r =>
            if r.tag_id ∈ tids then { r with files_ids := r.files_ids ++ [fid] } else r) := by
  intro tids
  induction tids with
  | nil =>
    intro s0 _ _
    simp [reattachGo]
  | cons t ts ih =>
    intro s0 hnd hN
    have hts : t ∉ ts := (List.nodup_cons.mp hnd).1
    have hnd' : ts.Nodup := (List.nodup_cons.mp hnd).2
    have hN1 : ((updateTagFileIDs s0 (some t)
        (getFileIDsUnderTagID s0 (some t) ++ [fid])).tags.map (fun r => r.tag_id)).Nodup := by
      rw [map_tagId_updateTagFileIDs]; exact hN
    have hstep : reattachGo fid (t :: ts) s0
        = reattachGo fid ts (updateTagFileIDs s0 (some t)
            (getFileIDsUnderTagID s0 (some t) ++ [fid])) := rfl
    rw [hstep, ih _ hnd' hN1]
    show (s0.tags.map _).map _ = _
    rw [List.map_map]
    apply List.map_congr_left
    intro r hr
    simp only [Function.comp]
    by_cases hrt : r.tag_id = t
    · have hfr : getFileIDsUnderTagID s0 (some t) = r.files_ids := by
        rw [← hrt]; exact getFileIDs_eq_row s0 hN r hr
      simp [hrt, hts, hfr]
    · simp [hrt]

/-- Shape of a successful `deleteFile` on a resolvable path: the
reference-removal loop runs and the file row is dropped. -/
theorem deleteFile_success (u : String → Int) (s : St) (path : String) (pf b : Nat)
    (hpf : getFolderID s (popBack (splitPathIntoParts path)).2 = some pf)
    (hb : getFileID s (popBack (splitPathIntoParts path)).1 pf = some b)
    (hdel : (deleteFile u s path).1 = 0) :
    deleteFile u s path
      = (0, { (deleteFileRemoveRefs s b).1 with
              files := (deleteFileRemoveRefs s b).1.files.filter (fun f => !(f.file_id == b)) },
            (deleteFileRemoveRefs s b).2) := by
  have hh : ∃ h, getHash s (popBack (splitPathIntoParts path)).1 pf = some h := by
    unfold getFileID at hb
    unfold getHash
    cases hf : s.files.find? (fun f =>
        f.filename == (popBack (splitPathIntoParts path)).1 && f.parent_folder == pf) with
    | none => rw [hf] at hb; simp at hb
    | some f => exact ⟨f.hash, rfl⟩
  rcases hh with ⟨h, hh⟩
  by_cases hrv : (if countHashGtOne s h = false then u h else 0) = 0
  · simp [deleteFile, hpf, hh, hrv, hb, deleteFileRemoveRefs]
  · exfalso
    have hfst : (deleteFile u s path).1 = (if countHashGtOne s h = false then u h else 0) := by
      simp [deleteFile, hpf, hh, hrv]
    rw [hdel] at hfst
    exact hrv hfst.symm

/-- The concrete store for the C6 counterexample: one tag `T` (id 2)
referencing file 11, and two files `a` (id 10, blob `HA`) and `b`
(id 11, blob `HB`) in the root folder. -/
def rnSt : St :=
  { tags := [
      { tag_id := 0, tag_name := "__TaggableFS__//", parent_folder := -1,
        parent_tags := [], child_tags := [2], files_ids := [] },
      { tag_id := 1, tag_name := "/", parent_folder := -1,
        parent_tags := [], child_tags := [], files_ids := [] },
      { tag_id := 2, tag_name := "T", parent_folder := 0,
        parent_tags := [0], child_tags := [], files_ids := [11] } ],
    files := [
      { file_id := 10, filename := "a", hash := "HA", parent_folder := 1 },
      { file_id := 11, filename := "b", hash := "HB", parent_folder := 1 } ] }

/-- Unlink oracle failing (with `EIO = 5`) exactly on blob `HB`. -/
def failOnHB : String → Int :=
  fun h => if h = "HB" then 5 else 0

/-- **C6 (counterexample)** — the claim fails as stated: renaming `/a`
over the existing `/b` returns success (`0`) even though the unlink of
`b`'s blob failed inside the ignored `deleteFile` call, and afterwards
tag `T` still references the overwritten file 11 and does not reference
the renamed file 10. -/
theorem renamePath_replace_loses_tags :
    getFileID rnSt "b" 1 = some 11 ∧
    (renamePath failOnHB rnSt "/a" "/b").1 = 0 ∧
    ∃ r ∈ (renamePath failOnHB rnSt "/a" "/b").2.tags,
      r.parent_folder = 0 ∧ 11 ∈ r.files_ids ∧ 10 ∉ r.files_ids := by
  decide

/-- **C6 (amended)** — rename preserves tags *provided the deletion of
the overwritten file succeeds*: for every successful
`renamePath old new` over a pre-existing destination file `b` (distinct
from the source file `a`) in which the embedded `deleteFile` of the
destination also succeeded, no tag references `b` afterwards, and every
tag that referenced `b` before now references `a`.  (Ids are
duplicate-free and tag file lists are duplicate-free, as in every store
the program builds.) -/
theorem renamePath_replace_preserves_tags (u : String → Int) (s : St)
    (oldPath newPath : String) (opf npf a b : Nat)
    (hNT : (s.tags.map (fun r => r.tag_id)).Nodup)
    (hNF : ∀ r ∈ s.tags, r.files_ids.Nodup)
    (hopf : getFolderID s (popBack (splitPathIntoParts oldPath)).2 = some opf)
    (ha : getFileID s (popBack (splitPathIntoParts oldPath)).1 opf = some a)
    (hnpf : getFolderID s (popBack (splitPathIntoParts newPath)).2 = some npf)
    (hb : getFileID s (popBack (splitPathIntoParts newPath)).1 npf = some b)
    (hab : a ≠ b)
    (hdel : (deleteFile u s newPath).1 = 0)
    (hrv : (renamePath u s oldPath newPath).1 = 0) :
    (∀ r ∈ (renamePath u s oldPath newPath).2.tags, r.parent_folder = 0 → b ∉ r.files_ids) ∧
    (∀ r ∈ s.tags, r.parent_folder = 0 → b ∈ r.files_ids →
      ∃ r2 ∈ (renamePath u s oldPath newPath).2.tags, r2.tag_id = r.tag_id ∧
        a ∈ r2.files_ids) := by
  -- the successful return forces the file branch (no destination folder)
  -- with a passed tag-name pre-check
  cases hnfol : getFolderIDIn s (popBack (splitPathIntoParts newPath)).1 npf with
  | some y =>
    exfalso
    cases hofol : getFolderIDIn s (popBack (splitPathIntoParts oldPath)).1 opf with
    | some x => simp [renamePath, hopf, ha, hnpf, hb, hofol, hnfol] at hrv
    | none => simp [renamePath, hopf, ha, hnpf, hb, hofol, hnfol] at hrv
  | none =>
    cases hP : (getFileTags s a).any (fun tag =>
        (popBack (splitPathIntoParts newPath)).1 ∈ getFilenamesUnderTagID s (getTagID s tag)) with
    | true =>
      exfalso
      simp [renamePath, hopf, ha, hnpf, hb, hnfol, hP, EEXIST] at hrv
    | false =>
      have hDF := deleteFile_success u s newPath npf b hnpf hb hdel
      have hmain : renamePath u s oldPath newPath
          = (0, reattachGo a (deleteFileRemoveRefs s b).2
              { tags := (deleteFileRemoveRefs s b).1.tags,
                files := ((deleteFileRemoveRefs s b).1.files.filter
                    (fun f => !(f.file_id == b))).map
                  (fun f => if f.file_id == a then { f with filename := (popBack (splitPathIntoParts newPath)).1, parent_folder := npf } else f) }) := by
        simp [renamePath, hopf, ha, hnpf, hb, hnfol, hP, hDF]
      have hrs := removeRefsGo_spec b (getAllTagIDs s) s [] (getAllTagIDs_nodup s hNT) hNT
      have hrs1 : (deleteFileRemoveRefs s b).1.tags
          = s.tags.map (fun r =>
              if r.tag_id ∈ getAllTagIDs s ∧ b ∈ r.files_ids then
                { r with files_ids := r.files_ids.erase b } else r) := by
        simp only [deleteFileRemoveRefs]
        exact hrs.1
      have hrs2 : (deleteFileRemoveRefs s b).2
          = (getAllTagIDs s).filter
              (fun t => decide (b ∈ getFileIDsUnderTagID s (some t))) := by
        simp only [deleteFileRemoveRefs]
        rw [hrs.2]
        simp
      have hsavedN : (deleteFileRemoveRefs s b).2.Nodup := by
        rw [hrs2]
        exact (getAllTagIDs_nodup s hNT).filter _
      have hS2N : (((deleteFileRemoveRefs s b).1.tags).map (fun r => r.tag_id)).Nodup := by
        rw [hrs1, map_tagId_of_pres _ (fun r => by split <;> rfl)]
        exact hNT
      have hreattach := reattachGo_spec a (deleteFileRemoveRefs s b).2
        { tags := (deleteFileRemoveRefs s b).1.tags,
          files := ((deleteFileRemoveRefs s b).1.files.filter
              (fun f => !(f.file_id == b))).map
            (fun f => if f.file_id == a then { f with filename := (popBack (splitPathIntoParts newPath)).1, parent_folder := npf } else f) } hsavedN hS2N
      have htags : (renamePath u s oldPath newPath).2.tags
          = (s.tags.map (fun r =>
              if r.tag_id ∈ getAllTagIDs s ∧ b ∈ r.files_ids then
                { r with files_ids := r.files_ids.erase b } else r)).map
              (fun r => if r.tag_id ∈ (deleteFileRemoveRefs s b).2 then
                  { r with files_ids := r.files_ids ++ [a] } else r) := by
        rw [hmain]
        show (reattachGo a (deleteFileRemoveRefs s b).2 _).tags = _
        rw [hreattach]
        show (deleteFileRemoveRefs s b).1.tags.map _ = _
        rw [hrs1]
      constructor
      · intro r3 hr3 hpf3
        rw [htags] at hr3
        rcases List.mem_map.mp hr3 with ⟨r1, hr1, hG⟩
        rcases List.mem_map.mp hr1 with ⟨r0, hr0, hF⟩
        have hid1 : r1.tag_id = r0.tag_id := by rw [← hF]; split <;> rfl
        have hpf1 : r1.parent_folder = r0.parent_folder := by rw [← hF]; split <;> rfl
        have hpf0 : r0.parent_folder = 0 := by
          rw [← hpf1, ← show r3.parent_folder = r1.parent_folder by rw [← hG]; split <;> rfl]
          exact hpf3
        have hbnot1 : b ∉ r1.files_ids := by
          rw [← hF]
          by_cases hc1 : r0.tag_id ∈ getAllTagIDs s ∧ b ∈ r0.files_ids
          · rw [if_pos hc1]
            exact fun hmm => ((hNF r0 hr0).mem_erase_iff.mp hmm).1 rfl
          · rw [if_neg hc1]
            intro hbm
            exact hc1 ⟨mem_getAllTagIDs s r0 hr0 hpf0, hbm⟩
        rw [← hG]
        by_cases hc2 : r1.tag_id ∈ (deleteFileRemoveRefs s b).2
        · rw [if_pos hc2]
          intro hmm
          rcases List.mem_append.mp hmm with hmm | hmm
          · exact hbnot1 hmm
          · have hba : b = a := by simpa using hmm
            exact hab hba.symm
        · rw [if_neg hc2]
          exact hbnot1
      · intro r0 hr0 hpf0 hbm
        have hc1 : r0.tag_id ∈ getAllTagIDs s ∧ b ∈ r0.files_ids :=
          ⟨mem_getAllTagIDs s r0 hr0 hpf0, hbm⟩
        have hsavedMem : r0.tag_id ∈ (deleteFileRemoveRefs s b).2 := by
          rw [hrs2]
          refine List.mem_filter.mpr ⟨hc1.1, ?_⟩
          rw [getFileIDs_eq_row s hNT r0 hr0]
          exact decide_eq_true hbm
        refine ⟨(fun r => if r.tag_id ∈ (deleteFileRemoveRefs s b).2 then
            { r with files_ids := r.files_ids ++ [a] } else r)
          ((fun r => if r.tag_id ∈ getAllTagIDs s ∧ b ∈ r.files_ids then
            { r with files_ids := r.files_ids.erase b } else r) r0), ?_, ?_, ?_⟩
        · rw [htags]
          exact List.mem_map_of_mem _ (List.mem_map_of_mem _ hr0)
        · dsimp only
          rw [if_pos hc1]
          rw [if_pos (by simpa using hsavedMem)]
        · dsimp only
          rw [if_pos hc1]
          rw [if_pos (by simpa using hsavedMem)]
          simp

/-- An unlink oracle that always succeeds. -/
def okUnlink : String → Int := fun _ => 0

/-- Witness for the amended C6: with a succeeding unlink, renaming `/a`
over `/b` in `rnSt` re-attaches file 10 to tag `T` (id 2). -/
theorem renamePath_replace_preserves_tags_witness :
    ∃ r2 ∈ (renamePath okUnlink rnSt "/a" "/b").2.tags, r2.tag_id = 2 ∧ 10 ∈ r2.files_ids :=
  (renamePath_replace_preserves_tags okUnlink rnSt "/a" "/b" 1 1 10 11
    (by decide) (by decide) (by decide) (by decide) (by decide) (by decide) (by decide)
    (by decide) (by decide)).2
    { tag_id := 2, tag_name := "T", parent_folder := 0, parent_tags := [0], child_tags := [],
      files_ids := [11] }
    (by decide) (by decide) (by decide)

end TaggableFS
